import Mathlib

/-!
Shallow embedding of the capability-execution engine of the `chanAI`
repository: the `tool` package's `Executor` (concurrency admission, input
validation, approval gate, timeout resolution, retry loop, batch
scheduling) and `Registry`.

Modelling conventions:
* Go `time.Duration` and `time.Time` readings are integers (nanoseconds).
* A capability (`Tool` interface value) is characterised by what the
  executor can observe of it: its name, its input schema, whether it also
  satisfies the `EnhancedTool` contract, and the outcome its `Execute`
  method produces on each attempt (attempt index ↦ (error, output)); the
  per-attempt timeout context is absorbed into that oracle (a timed-out
  attempt is an attempt whose outcome is an error).
* The nondeterministic environment of one `Execute` call (whether the
  caller's context fires while waiting for the admission slot, whether it
  fires during the backoff wait after a given attempt, and the two
  `time.Now()` readings) is an explicit `ExecEnv` record.
* Fallible Go values `(T, error)` become pairs of options; a `nil` error is
  `none`.
* Besides the `ExecuteResult`, the model returns a ghost trace: the list of
  attempt indices at which the capability's `Execute` was invoked and the
  list of attempt indices after which the backoff select was entered.
-/

namespace ChanAI

/-- A value stored in `ToolContext.Metadata` (Go `map[string]any`), as far
as the engine inspects it: a boolean, or anything else (the `.(bool)` type
assertion fails on the latter). -/
inductive MetaVal : Type
  | boolV (b : Bool)
  | otherV
deriving DecidableEq

/-- The part of `ToolContext` the executor reads: the `Metadata` map,
modelled as an association list (first binding wins, as in a Go map with
unique keys). -/
structure ToolContext : Type where
  metadata : List (String × MetaVal)
deriving DecidableEq

/-- Model of `approved` (executor.go): a nil context is not approved; otherwise the
`"approved"` metadata entry must exist, be a boolean, and be true. -/
def approved : Option ToolContext → Bool
  | none => false
  | some tc =>
    match tc.metadata.lookup "approved" with
    | some (MetaVal.boolV b) => b
    | _ => false

/-- One element of a schema's `"required"` entry when that entry is a Go
`[]any`: a string, or a non-string value (skipped by `ValidateInput`). -/
inductive ReqElem : Type
  | strElem (s : String)
  | nonStrElem
deriving DecidableEq

/-- The `"required"` entry of a tool's input schema, as `ValidateInput`
type-switches on it: a `[]string`, a `[]any`, or absent / of another type. -/
inductive RequiredSpec : Type
  | asStrings (l : List String)
  | asAnys (l : List ReqElem)
  | absent
deriving DecidableEq

/-- The part of a tool's `InputSchema()` map that `ValidateInput` reads. -/
structure Schema : Type where
  required : RequiredSpec
deriving DecidableEq

/-- Model of `RetryPolicy` (types.go). -/
structure RetryPolicy : Type where
  maxRetries : Int
  initialBackoff : Int
  maxBackoff : Int
  backoffMultiplier : Float
  retryableErrors : List String

/-- The `EnhancedTool` contract's extra methods (types.go), as constant
observations. -/
structure EnhancedProps : Type where
  isLongRunningVal : Bool
  timeoutVal : Int
  priorityVal : Int
  requiresApprovalVal : Bool
  retryPolicyVal : Option RetryPolicy

/-- A capability as the executor observes it.  `enhanced = some _` means
the value also satisfies the `EnhancedTool` interface (the executor's type
assertion succeeds).  `behavior k` is the `(error, output)` pair the
capability's `Execute` returns on its `k`-th invocation (0-based) within
one `Executor.Execute` call. -/
structure Tool (α : Type) : Type where
  nameVal : String
  schemaVal : Option Schema
  enhanced : Option EnhancedProps
  behavior : Nat → Option String × Option α

/-- Value of `et.RetryPolicy()` where the type assertion may fail: the executor's
`retryPolicy` local variable. -/
def retryPolicyOf {α : Type} (t : Tool α) : Option RetryPolicy :=
  match t.enhanced with
  | some et => et.retryPolicyVal
  | none => none

/-- The executor's `longRunning` local variable. -/
def longRunningOf {α : Type} (t : Tool α) : Bool :=
  match t.enhanced with
  | some et => et.isLongRunningVal
  | none => false

/-- The executor's `requiresApproval` local variable. -/
def requiresApprovalOf {α : Type} (t : Tool α) : Bool :=
  match t.enhanced with
  | some et => et.requiresApprovalVal
  | none => false

/-- Model of `ExecuteBatch`'s per-request priority: `et.Priority()` when the tool
satisfies `EnhancedTool`, 0 otherwise. -/
def priorityOf {α : Type} (t : Tool α) : Int :=
  match t.enhanced with
  | some et => et.priorityVal
  | none => 0

/-- The string-list extracted from the schema's `"required"` entry by
`ValidateInput`'s two type switches (tool.go lines 158-167). -/
def extractRequired : RequiredSpec → List String
  | RequiredSpec.asStrings l => l
  | RequiredSpec.asAnys l =>
    l.filterMap fun e =>
      match e with
      | ReqElem.strElem s => some s
      | ReqElem.nonStrElem => none
  | RequiredSpec.absent => []

/-- Model of `ValidateInput` (tool.go): nil schema passes; otherwise the first
required field missing from the input keys produces an error.  The input
map is modelled by its key set (a list of keys). -/
def validateInput {α : Type} (t : Tool α) (input : List String) : Option String :=
  match t.schemaVal with
  | none => none
  | some sch =>
    match (extractRequired sch.required).find? (fun f => !(input.contains f)) with
    | some f => some ("missing required field: " ++ f)
    | none => none

/-- Go `strings.Contains s pat`: the pattern occurs as a contiguous
substring. -/
def containsSubstr (s pat : String) : Bool :=
  decide (pat.data <:+: s.data)

/-- Model of `isRetryable` (executor.go): nil policy or empty pattern list retries
everything; otherwise some configured pattern must occur in the error's
message. -/
def isRetryable (errMsg : String) (policy : Option RetryPolicy) : Bool :=
  match policy with
  | none => true
  | some p =>
    if p.retryableErrors.isEmpty then true
    else p.retryableErrors.any fun pattern => containsSubstr errMsg pattern

/-- Model of `ExecutorConfig`. -/
structure ExecutorConfig : Type where
  maxConcurrency : Int
  defaultTimeout : Int
deriving DecidableEq

/-- One second of Go `time.Duration`, in nanoseconds. -/
def second : Int := 1000000000

/-- The config normalisation performed by `NewExecutor` (executor.go lines
80-91): non-positive fields fall back to 5 and 60s. -/
def newExecutorConfig (cfg : ExecutorConfig) : ExecutorConfig :=
  { maxConcurrency := if cfg.maxConcurrency ≤ 0 then 5 else cfg.maxConcurrency
    defaultTimeout := if cfg.defaultTimeout ≤ 0 then 60 * second else cfg.defaultTimeout }

/-- The effective per-attempt timeout computed by `Executor.Execute`
(executor.go lines 131-155): start from the executor's default; an
`EnhancedTool` with positive `Timeout()` overrides it; a long-running tool
with `Timeout() == 0` and no request override relaxes it to 0 (unbounded);
a positive request override takes final precedence. -/
def effTimeout {α : Type} (defaultTimeout : Int) (t : Tool α) (timeoutOverride : Int) : Int :=
  match t.enhanced with
  | none =>
    if 0 < timeoutOverride then timeoutOverride else defaultTimeout
  | some et =>
    let t1 := if 0 < et.timeoutVal then et.timeoutVal else defaultTimeout
    let t2 :=
      if et.isLongRunningVal && et.timeoutVal == 0 && timeoutOverride == 0 then 0 else t1
    if 0 < timeoutOverride then timeoutOverride else t2

/-- The spec's own wording of timeout resolution, for comparison with
`effTimeout`: request override if positive, else extended-contract timeout
if positive, else — unless the long-running/no-timeout/no-override
exception grants unboundedness — the engine default. -/
def specTimeout {α : Type} (defaultTimeout : Int) (t : Tool α) (timeoutOverride : Int) : Int :=
  if 0 < timeoutOverride then timeoutOverride
  else
    match t.enhanced with
    | some et =>
      if 0 < et.timeoutVal then et.timeoutVal
      else if et.isLongRunningVal && et.timeoutVal == 0 && timeoutOverride == 0 then 0
      else defaultTimeout
    | none => defaultTimeout

/-- Model of `ExecuteRequest`. -/
structure ExecuteRequest (α : Type) : Type where
  tool : Tool α
  input : List String
  context : Option ToolContext
  timeoutOverride : Int

/-- Model of `ExecuteResult` (executor.go lines 102-112).  Fields omitted from a Go
struct literal take their zero value. -/
structure ExecuteResult (α : Type) : Type where
  success : Bool
  output : Option α
  error : Option String
  duration : Int
  startedAt : Int
  finishedAt : Int
  attempts : Nat
  longRunning : Bool
deriving DecidableEq

/-- The nondeterministic environment of one `Execute` call. -/
structure ExecEnv : Type where
  /-- the caller's context fires before an admission slot is free -/
  slotCancelled : Bool
  /-- the caller's context fires during the backoff select that follows the
  given attempt index, before the backoff timer does -/
  backoffCancelled : Nat → Bool
  /-- the `time.Now()` reading taken on entry -/
  startTime : Int
  /-- the `time.Now()` reading taken at whichever return is reached -/
  finishTime : Int

/-- The message of Go's `context.Canceled` error, the value `ctx.Err()`
yields after cancellation. -/
def ctxCanceledMsg : String := "context canceled"

/-- The state of the attempt loop's mutable variables when it finishes,
plus the ghost traces. -/
structure LoopOut (α : Type) : Type where
  output : Option α
  execErr : Option String
  attempts : Nat
  /-- attempt indices at which the capability's `Execute` was invoked -/
  invoked : List Nat
  /-- attempt indices after which the backoff select was entered -/
  backoffs : List Nat
deriving DecidableEq

/-- The attempt loop (executor.go lines 182-218), by recursion on the
number of remaining iterations.  Arguments after the oracles: remaining
iterations, current attempt index, then the current values of the `output`,
`execErr`, `attempts` variables and the two ghost traces. -/
def runLoopAux {α : Type} (behavior : Nat → Option String × Option α)
    (policy : Option RetryPolicy) (cancelB : Nat → Bool) :
    Nat → Nat → Option α → Option String → Nat → List Nat → List Nat → LoopOut α
  | 0, _, out, err, att, inv, backs => ⟨out, err, att, inv, backs⟩
  | remaining + 1, attempt, _, _, _, inv, backs =>
    let r := behavior attempt
    let inv' := inv ++ [attempt]
    match r.1 with
    | none => ⟨r.2, none, attempt + 1, inv', backs⟩
    | some msg =>
      if remaining = 0 then ⟨r.2, some msg, attempt + 1, inv', backs⟩
      else if !(isRetryable msg policy) then ⟨r.2, some msg, attempt + 1, inv', backs⟩
      else
        let backs' := backs ++ [attempt]
        if cancelB attempt then ⟨r.2, some ctxCanceledMsg, attempt + 1, inv', backs'⟩
        else runLoopAux behavior policy cancelB remaining (attempt + 1) r.2 (some msg)
          (attempt + 1) inv' backs'

/-- The whole attempt loop with `maxAttempts` iterations allowed, starting
from the zero values of `output`, `execErr`, `attempts`. -/
def runLoop {α : Type} (behavior : Nat → Option String × Option α)
    (policy : Option RetryPolicy) (cancelB : Nat → Bool) (maxAttempts : Int) : LoopOut α :=
  runLoopAux behavior policy cancelB maxAttempts.toNat 0 none none 0 [] []

/-- Value `maxAttempts = 1 + retryPolicy.MaxRetries` when a retry policy is
present, 1 otherwise (executor.go lines 177-180). -/
def maxAttemptsOf {α : Type} (t : Tool α) : Int :=
  match retryPolicyOf t with
  | some p => 1 + p.maxRetries
  | none => 1

/-- Model of `Executor.Execute` (executor.go lines 115-232, the enhanced variant):
admission, validation, policy resolution, approval gate, attempt loop.
Returns the `ExecuteResult` together with the loop's ghost traces (empty on
the short-circuit paths, where the capability is never invoked). -/
def executeModel {α : Type} (cfg : ExecutorConfig) (env : ExecEnv)
    (req : ExecuteRequest α) : ExecuteResult α × LoopOut α :=
  if env.slotCancelled then
    ({ success := false, output := none, error := some ctxCanceledMsg
       duration := 0, startedAt := env.startTime, finishedAt := env.finishTime
       attempts := 0, longRunning := false }, ⟨none, none, 0, [], []⟩)
  else
    match validateInput req.tool req.input with
    | some msg =>
      ({ success := false, output := none, error := some msg
         duration := 0, startedAt := env.startTime, finishedAt := env.finishTime
         attempts := 0, longRunning := false }, ⟨none, none, 0, [], []⟩)
    | none =>
      if requiresApprovalOf req.tool && !(approved req.context) then
        ({ success := false, output := none
           error := some ("tool " ++ req.tool.nameVal ++ " requires approval before execution")
           duration := env.finishTime - env.startTime
           startedAt := env.startTime, finishedAt := env.finishTime
           attempts := 0, longRunning := false }, ⟨none, none, 0, [], []⟩)
      else
        let lo := runLoop req.tool.behavior (retryPolicyOf req.tool) env.backoffCancelled
          (maxAttemptsOf req.tool)
        ({ success := lo.execErr.isNone, output := lo.output, error := lo.execErr
           duration := env.finishTime - env.startTime
           startedAt := env.startTime, finishedAt := env.finishTime
           attempts := lo.attempts, longRunning := longRunningOf req.tool }, lo)

/-- One entry of `ExecuteBatch`'s `prioritized` slice: original index,
request, effective priority. -/
structure BatchItem (α : Type) : Type where
  idx : Nat
  req : ExecuteRequest α
  priority : Int

/-- Stable insertion of a later-arriving item into an already
descending-sorted list: the item moves past exactly the strictly
higher-priority entries, so ties keep their original relative order.  This
realises the contract of Go's `sort.SliceStable` with
`less i j := priority i > priority j`. -/
def insertByPriority {α : Type} (x : BatchItem α) :
    List (BatchItem α) → List (BatchItem α)
  | [] => [x]
  | y :: ys =>
    if x.priority < y.priority then y :: insertByPriority x ys
    else x :: y :: ys

/-- Stable sort by descending priority (`sort.SliceStable` in
`ExecuteBatch`). -/
def stableSortDesc {α : Type} : List (BatchItem α) → List (BatchItem α)
  | [] => []
  | x :: xs => insertByPriority x (stableSortDesc xs)

/-- The `prioritized` slice built by `ExecuteBatch` before sorting. -/
def batchItems {α : Type} (reqs : List (ExecuteRequest α)) : List (BatchItem α) :=
  reqs.enum.map fun p => ⟨p.1, p.2, priorityOf p.2.tool⟩

/-- The order in which `ExecuteBatch` dispatches the requests. -/
def dispatchOrder {α : Type} (reqs : List (ExecuteRequest α)) : List (BatchItem α) :=
  stableSortDesc (batchItems reqs)

/-- The body of one of `ExecuteBatch`'s goroutines:
`results[item.idx] = e.Execute(ctx, item.req)`. -/
def batchStep {α : Type} (cfg : ExecutorConfig) (envs : Nat → ExecEnv)
    (results : List (Option (ExecuteResult α))) (item : BatchItem α) :
    List (Option (ExecuteResult α)) :=
  results.set item.idx (some (executeModel cfg (envs item.idx) item.req).1)

/-- Model of `Executor.ExecuteBatch` (executor.go lines 235-272): build the
prioritized slice, stable-sort it descending, run every request (each under
its own per-request environment `envs i`, indexed by original position) and
write each result at the item's original index into a slot of the `results`
slice (initially all `nil`, modelled as `none`). -/
def executeBatch {α : Type} (cfg : ExecutorConfig) (envs : Nat → ExecEnv)
    (reqs : List (ExecuteRequest α)) : List (Option (ExecuteResult α)) :=
  (dispatchOrder reqs).foldl (batchStep cfg envs) (List.replicate reqs.length none)

/-- The order `ExecuteBatch`'s stable descending sort is meant to achieve:
an earlier dispatch slot holds a strictly higher priority, or an equal
priority at a smaller original index (ties keep submission order). -/
def BatchRel {α : Type} (a b : BatchItem α) : Prop :=
  b.priority < a.priority ∨ (a.priority = b.priority ∧ a.idx < b.idx)

/-! ### Registry -/

/-- A tool factory: Go `func(config map[string]any) (Tool, error)`.  The
config map stays abstract (`κ`), the produced tool abstract (`τ`). -/
def ToolFactory (κ τ : Type) : Type := κ → Option τ × Option String

/-- Model of `Registry` (registry.go): a factory map and an instance map, modelled
as association lists (first binding wins). -/
structure Registry (κ τ : Type) : Type where
  factories : List (String × ToolFactory κ τ)
  instances : List (String × τ)

/-- Model of `NewRegistry`. -/
def newRegistry {κ τ : Type} : Registry κ τ := ⟨[], []⟩

/-- Model of `Registry.RegisterFactory`. -/
def registerFactory {κ τ : Type} (r : Registry κ τ) (name : String)
    (factory : ToolFactory κ τ) : Registry κ τ :=
  { r with factories := (name, factory) :: r.factories }

/-- Model of `Registry.RegisterInstance` for a tool with the given name. -/
def registerInstance {κ τ : Type} (r : Registry κ τ) (name : String) (t : τ) :
    Registry κ τ :=
  { r with instances := (name, t) :: r.instances }

/-- The message of `ToolNotFoundError` (registry.go lines 160-167). -/
def toolNotFoundMsg (name : String) : String := "tool not found: " ++ name

/-- Model of `Registry.Create` (registry.go lines 46-62): prefer a factory (applied
to the config), fall back to a registered instance (config ignored), else
fail with `ToolNotFoundError`.  The registry state after the call is
returned alongside: the body only reads the maps, so it is the input
state. -/
def registryCreate {κ τ : Type} (r : Registry κ τ) (name : String) (config : κ) :
    (Option τ × Option String) × Registry κ τ :=
  match r.factories.lookup name with
  | some factory => (factory config, r)
  | none =>
    match r.instances.lookup name with
    | some inst => ((some inst, none), r)
    | none => ((none, some (toolNotFoundMsg name)), r)

/-! ### Admission pool (semaphore) transition system

`Executor.Execute` guards every capability execution with a buffered
channel of capacity `MaxConcurrency`: the select at executor.go lines
118-124 either sends into the channel (blocking while it is full) and
defers the receive to the function's return, or observes the caller's
cancellation and returns without having sent.  The interleaving of many
concurrent `Execute` calls is modelled as a labelled transition system over
the phases of the individual requests plus the channel's occupancy. -/

/-- The phase of one request with respect to the admission pool. -/
inductive Phase : Type
  | queued
  | running
  | finished
  | cancelled
deriving DecidableEq

/-- Global state: the phase of each request and the semaphore channel's
occupancy. -/
structure PoolState : Type where
  phases : List Phase
  occupancy : Nat
deriving DecidableEq

/-- One scheduler step of the admission pool with capacity `k`:
* `acquire`: a queued request's send into the semaphore succeeds — only
  possible while the channel holds fewer than `k` tokens — and the request
  starts executing;
* `cancelBeforeAdmission`: the caller's context fires while the request is
  still queued; it returns at once, having sent nothing;
* `finishAndRelease`: a running request's `Execute` returns and its
  deferred receive takes one token back out. -/
inductive PoolStep (k : Nat) : PoolState → PoolState → Prop
  | acquire (s : PoolState) (i : Nat) (h : s.phases[i]? = some Phase.queued)
      (hocc : s.occupancy < k) :
      PoolStep k s ⟨s.phases.set i Phase.running, s.occupancy + 1⟩
  | cancelBeforeAdmission (s : PoolState) (i : Nat)
      (h : s.phases[i]? = some Phase.queued) :
      PoolStep k s ⟨s.phases.set i Phase.cancelled, s.occupancy⟩
  | finishAndRelease (s : PoolState) (i : Nat)
      (h : s.phases[i]? = some Phase.running) :
      PoolStep k s ⟨s.phases.set i Phase.finished, s.occupancy - 1⟩

/-- The initial state of `n` submitted requests: all queued, empty
semaphore. -/
def initPool (n : Nat) : PoolState := ⟨List.replicate n Phase.queued, 0⟩

/-- Reachability of a pool state from `n` queued requests under capacity
`k`. -/
def PoolReachable (k n : Nat) (s : PoolState) : Prop :=
  Relation.ReflTransGen (PoolStep k) (initPool n) s

/-- The number of capability executions in flight. -/
def runningCount (s : PoolState) : Nat :=
  s.phases.countP fun p => p == Phase.running

/-! ### Concrete sample data used by the closed witness statements -/

/-- A retry policy with three retries and one retryable pattern. -/
def c1Policy : RetryPolicy :=
  ⟨3, 100, 5000, 2.0, ["transient"]⟩

/-- A capability that fails twice with a retryable error and then
succeeds. -/
def c1Tool : Tool Nat :=
  { nameVal := "flaky"
    schemaVal := some ⟨RequiredSpec.asStrings ["input"]⟩
    enhanced := some ⟨false, 0, 0, false, some c1Policy⟩
    behavior := fun k => if k < 2 then (some "transient failure", none) else (none, some 42) }

/-- A benign execution environment: nothing cancels, entry at 0, exit at 7. -/
def c1Env : ExecEnv := ⟨false, fun _ => false, 0, 7⟩

def c1Req : ExecuteRequest Nat := ⟨c1Tool, ["input"], none, 0⟩

/-- A capability satisfying the extended contract as long-running with no
declared timeout. -/
def c2Tool : Tool Nat :=
  { nameVal := "bg"
    schemaVal := none
    enhanced := some ⟨true, 0, 0, false, none⟩
    behavior := fun _ => (none, some 0) }

/-- A capability that requires approval. -/
def c3Tool : Tool Nat :=
  { nameVal := "sensitive"
    schemaVal := none
    enhanced := some ⟨false, 0, 0, true, none⟩
    behavior := fun _ => (none, some 1) }

def c3Env : ExecEnv := ⟨false, fun _ => false, 0, 3⟩

def c3Req : ExecuteRequest Nat := ⟨c3Tool, [], none, 0⟩

/-- A plain capability (no extended contract). -/
def c4Tool : Tool Nat :=
  { nameVal := "plain"
    schemaVal := none
    enhanced := none
    behavior := fun _ => (none, some 0) }

/-- An environment whose caller's context fires while queued for
admission. -/
def c4Env : ExecEnv := ⟨true, fun _ => false, 0, 2⟩

def c4Req : ExecuteRequest Nat := ⟨c4Tool, [], none, 0⟩

/-- Two batch requests: index 0 at priority 1, index 1 at priority 5. -/
def c5Tool (pr : Int) (out : Nat) : Tool Nat :=
  { nameVal := "batched"
    schemaVal := none
    enhanced := some ⟨false, 0, pr, false, none⟩
    behavior := fun _ => (none, some out) }

def c5Reqs : List (ExecuteRequest Nat) :=
  [⟨c5Tool 1 10, [], none, 0⟩, ⟨c5Tool 5 20, [], none, 0⟩]

def c5Env : ExecEnv := ⟨false, fun _ => false, 0, 1⟩

/-- A capability failing immediately with a non-retryable error under a
policy whose only pattern is `"transient"`. -/
def c6Tool : Tool Nat :=
  { nameVal := "brittle"
    schemaVal := none
    enhanced := some ⟨false, 0, 0, false, some c1Policy⟩
    behavior := fun _ => (some "permanent: invalid argument", none) }

def c6Env : ExecEnv := ⟨false, fun _ => false, 0, 4⟩

def c6Req : ExecuteRequest Nat := ⟨c6Tool, [], none, 0⟩

/-- A capability whose schema requires a field the request does not
supply. -/
def c7Tool : Tool Nat :=
  { nameVal := "strict"
    schemaVal := some ⟨RequiredSpec.asStrings ["path"]⟩
    enhanced := none
    behavior := fun _ => (none, some 0) }

/-- An environment in which the validation-failure return happens 5ns after
entry. -/
def c7Env : ExecEnv := ⟨false, fun _ => false, 10, 15⟩

def c7Req : ExecuteRequest Nat := ⟨c7Tool, [], none, 0⟩

/-- A registry (over `Nat` configs and `Nat` tools) holding one factory and
one instance under distinct names. -/
def c8Reg : Registry Nat Nat :=
  registerInstance (registerFactory newRegistry "mk" fun cfgv => (some (cfgv + 1), none))
    "echo" 7

end ChanAI

namespace ChanAI

/-! ### Lemmas about the attempt loop -/

theorem runLoopAux_invoked_length {α : Type} (b : Nat → Option String × Option α)
    (p : Option RetryPolicy) (c : Nat → Bool) :
    ∀ (rem att : Nat) (o : Option α) (e : Option String) (a : Nat)
      (inv backs : List Nat),
      (runLoopAux b p c rem att o e a inv backs).invoked.length ≤ inv.length + rem := by
  intro rem
  induction rem with
  | zero => intro att o e a inv backs; simp [runLoopAux]
  | succ n ih =>
    intro att o e a inv backs
    cases hb : (b att).1 with
    | none => simp [runLoopAux, hb]
    | some msg =>
      simp only [runLoopAux, hb]
      by_cases hn : n = 0
      · simp [hn]
      · simp only [if_neg hn]
        by_cases hr : !(isRetryable msg p)
        · simp [hr]
        · simp only [hr, Bool.false_eq_true, if_false]
          by_cases hc : c att
          · simp [hc]
          · simp only [hc, Bool.false_eq_true, if_false]
            calc (runLoopAux b p c n (att + 1) (b att).2 (some msg) (att + 1)
                    (inv ++ [att]) (backs ++ [att])).invoked.length
                ≤ (inv ++ [att]).length + n := ih _ _ _ _ _ _
              _ ≤ inv.length + (n + 1) := by simp; omega

theorem runLoopAux_pass_or_pos {α : Type} (b : Nat → Option String × Option α)
    (p : Option RetryPolicy) (c : Nat → Bool) :
    ∀ (rem att : Nat) (o : Option α) (e : Option String) (a : Nat)
      (inv backs : List Nat),
      runLoopAux b p c rem att o e a inv backs = ⟨o, e, a, inv, backs⟩ ∨
        0 < (runLoopAux b p c rem att o e a inv backs).attempts := by
  intro rem
  induction rem with
  | zero => intro att o e a inv backs; left; simp [runLoopAux]
  | succ n ih =>
    intro att o e a inv backs
    cases hb : (b att).1 with
    | none => right; simp [runLoopAux, hb]
    | some msg =>
      simp only [runLoopAux, hb]
      by_cases hn : n = 0
      · right; simp [hn]
      · simp only [if_neg hn]
        by_cases hr : !(isRetryable msg p)
        · right; simp [hr]
        · simp only [hr, Bool.false_eq_true, if_false]
          by_cases hc : c att
          · right; simp [hc]
          · simp only [hc, Bool.false_eq_true, if_false]
            rcases ih (att + 1) (b att).2 (some msg) (att + 1) (inv ++ [att]) (backs ++ [att]) with h | h
            · right; rw [h]; exact Nat.succ_pos att
            · right; exact h

/-- If the first `k` attempts fail retryably without a cancellation during
their backoff waits, and attempt `k` succeeds within the allowed budget,
the loop stops right there with `attempts = k + 1`. -/
theorem runLoopAux_success_at {α : Type} (b : Nat → Option String × Option α)
    (p : Option RetryPolicy) (c : Nat → Bool) :
    ∀ (k rem att : Nat) (o : Option α) (e : Option String) (a : Nat)
      (inv backs : List Nat),
      k < rem →
      (∀ j, j < k → ∃ m, (b (att + j)).1 = some m ∧ isRetryable m p = true ∧
        c (att + j) = false) →
      (b (att + k)).1 = none →
      runLoopAux b p c rem att o e a inv backs =
        ⟨(b (att + k)).2, none, att + k + 1, inv ++ List.range' att (k + 1),
          backs ++ List.range' att k⟩ := by
  intro k
  induction k with
  | zero =>
    intro rem att o e a inv backs hrem _ hsucc
    obtain ⟨n, rfl⟩ : ∃ n, rem = n + 1 := ⟨rem - 1, by omega⟩
    simp only [Nat.add_zero] at hsucc
    simp [runLoopAux, hsucc]
  | succ k ih =>
    intro rem att o e a inv backs hrem hfail hsucc
    obtain ⟨n, rfl⟩ : ∃ n, rem = n + 1 := ⟨rem - 1, by omega⟩
    obtain ⟨m, hm, hmr, hmc⟩ := hfail 0 (Nat.succ_pos k)
    simp only [Nat.add_zero] at hm hmc
    have hn : n ≠ 0 := by omega
    simp only [runLoopAux, hm, if_neg hn, hmr, Bool.not_true, Bool.false_eq_true, if_false, hmc]
    have step := ih n (att + 1) (b att).2 (some m) (att + 1) (inv ++ [att]) (backs ++ [att])
      (by omega)
      (fun j hj => by
        have := hfail (j + 1) (by omega)
        simpa [Nat.add_assoc, Nat.add_comm 1 j] using this)
      (by
        have : att + 1 + k = att + (k + 1) := by omega
        rw [this]; exact hsucc)
    rw [step]
    have h1 : att + 1 + k + 1 = att + (k + 1) + 1 := by omega
    have h2 : att + 1 + k = att + (k + 1) := by omega
    rw [h1, h2]
    simp [List.range'_succ, List.append_assoc]

/-- If the first `k` attempts fail retryably without backoff cancellation
and attempt `k` fails with an error that either is not retryable or
exhausts the budget, the loop stops right there, reporting that error. -/
theorem runLoopAux_failStop_at {α : Type} (b : Nat → Option String × Option α)
    (p : Option RetryPolicy) (c : Nat → Bool) :
    ∀ (k rem att : Nat) (o : Option α) (e : Option String) (a : Nat)
      (inv backs : List Nat) (m : String),
      k < rem →
      (∀ j, j < k → ∃ mj, (b (att + j)).1 = some mj ∧ isRetryable mj p = true ∧
        c (att + j) = false) →
      (b (att + k)).1 = some m →
      (isRetryable m p = false ∨ rem = k + 1) →
      runLoopAux b p c rem att o e a inv backs =
        ⟨(b (att + k)).2, some m, att + k + 1, inv ++ List.range' att (k + 1),
          backs ++ List.range' att k⟩ := by
  intro k
  induction k with
  | zero =>
    intro rem att o e a inv backs m hrem _ hfailk hstop
    obtain ⟨n, rfl⟩ : ∃ n, rem = n + 1 := ⟨rem - 1, by omega⟩
    simp only [Nat.add_zero] at hfailk
    rcases hstop with hstop | hstop
    · by_cases hn : n = 0
      · simp [runLoopAux, hfailk, hn]
      · simp [runLoopAux, hfailk, if_neg hn, hstop]
    · have hn : n = 0 := by omega
      simp [runLoopAux, hfailk, hn]
  | succ k ih =>
    intro rem att o e a inv backs m hrem hfail hfailk hstop
    obtain ⟨n, rfl⟩ : ∃ n, rem = n + 1 := ⟨rem - 1, by omega⟩
    obtain ⟨m0, hm, hmr, hmc⟩ := hfail 0 (Nat.succ_pos k)
    simp only [Nat.add_zero] at hm hmc
    have hn : n ≠ 0 := by omega
    simp only [runLoopAux, hm, if_neg hn, hmr, Bool.not_true, Bool.false_eq_true, if_false, hmc]
    have step := ih n (att + 1) (b att).2 (some m0) (att + 1) (inv ++ [att]) (backs ++ [att]) m
      (by omega)
      (fun j hj => by
        have := hfail (j + 1) (by omega)
        simpa [Nat.add_assoc, Nat.add_comm 1 j] using this)
      (by
        have : att + 1 + k = att + (k + 1) := by omega
        rw [this]; exact hfailk)
      (by rcases hstop with h | h
          · exact Or.inl h
          · exact Or.inr (by omega))
    rw [step]
    have h1 : att + 1 + k + 1 = att + (k + 1) + 1 := by omega
    have h2 : att + 1 + k = att + (k + 1) := by omega
    rw [h1, h2]
    simp [List.range'_succ, List.append_assoc]

/-- When no short-circuit fires, `Execute` reaches the attempt loop and its
result fields are the loop's. -/
theorem executeModel_loop {α : Type} (cfg : ExecutorConfig) (env : ExecEnv)
    (req : ExecuteRequest α)
    (h1 : env.slotCancelled = false)
    (h2 : validateInput req.tool req.input = none)
    (h3 : (requiresApprovalOf req.tool && !(approved req.context)) = false) :
    (executeModel cfg env req).2 =
      runLoop req.tool.behavior (retryPolicyOf req.tool) env.backoffCancelled
        (maxAttemptsOf req.tool) ∧
    (executeModel cfg env req).1.success = (executeModel cfg env req).2.execErr.isNone ∧
    (executeModel cfg env req).1.error = (executeModel cfg env req).2.execErr ∧
    (executeModel cfg env req).1.attempts = (executeModel cfg env req).2.attempts := by
  simp [executeModel, h1, h2, h3]

/-! ### Claims -/

/-- C10: over every path of `Executor.Execute` — slot-wait cancellation,
validation failure, approval denial, or the attempt loop — the result's
`success` is true exactly when its `error` is nil. -/
theorem claim10_success_iff_error_nil {α : Type} :
    ∀ (cfg : ExecutorConfig) (env : ExecEnv) (req : ExecuteRequest α),
      ((executeModel cfg env req).1.success = true ↔
        (executeModel cfg env req).1.error = none) := by
  intro cfg env req
  by_cases h1 : env.slotCancelled
  · simp [executeModel, h1]
  · cases h2 : validateInput req.tool req.input with
    | some msg => simp [executeModel, h1, h2]
    | none =>
      by_cases h3 : (requiresApprovalOf req.tool && !(approved req.context)) = true
      · simp [executeModel, h1, h2, h3]
      · simp [executeModel, h1, h2, h3, Option.isNone_iff_eq_none]

/-- C3: a capability that requires approval, when the execution context
does not carry `"approved" ↦ true`, yields a failed result with zero
attempts, a non-nil error, and its `execute` is never invoked. -/
theorem claim3_approval_denied {α : Type} (cfg : ExecutorConfig) (env : ExecEnv)
    (req : ExecuteRequest α) (et : EnhancedProps)
    (henh : req.tool.enhanced = some et)
    (happ : et.requiresApprovalVal = true)
    (hnot : approved req.context = false) :
    (executeModel cfg env req).1.success = false ∧
    (executeModel cfg env req).1.attempts = 0 ∧
    (executeModel cfg env req).1.error ≠ none ∧
    (executeModel cfg env req).2.invoked = [] := by
  have hra : requiresApprovalOf req.tool = true := by
    simp [requiresApprovalOf, henh, happ]
  by_cases h1 : env.slotCancelled
  · simp [executeModel, h1]
  · cases h2 : validateInput req.tool req.input with
    | some msg => simp [executeModel, h1, h2]
    | none => simp [executeModel, h1, h2, hra, hnot]

/-- Witness for C3: the sample approval-gated capability with no context
fails with zero attempts and is never invoked. -/
theorem claim3_approval_denied_witness :
    (executeModel ⟨5, 0⟩ c3Env c3Req).1.success = false ∧
    (executeModel ⟨5, 0⟩ c3Env c3Req).1.attempts = 0 ∧
    (executeModel ⟨5, 0⟩ c3Env c3Req).1.error ≠ none ∧
    (executeModel ⟨5, 0⟩ c3Env c3Req).2.invoked = [] :=
  claim3_approval_denied ⟨5, 0⟩ c3Env c3Req ⟨false, 0, 0, true, none⟩ rfl rfl rfl

/-- C4: a failed result with `attempts = 0` arises exactly on the three
short-circuit paths — slot-wait cancellation, missing required field,
approval required but not granted — and on each of them the error is
non-nil and the capability is never invoked. -/
theorem claim4_short_circuits {α : Type} (cfg : ExecutorConfig) (env : ExecEnv)
    (req : ExecuteRequest α) :
    (((executeModel cfg env req).1.success = false ∧
        (executeModel cfg env req).1.attempts = 0) ↔
      (env.slotCancelled = true ∨
        (env.slotCancelled = false ∧ validateInput req.tool req.input ≠ none) ∨
        (env.slotCancelled = false ∧ validateInput req.tool req.input = none ∧
          requiresApprovalOf req.tool = true ∧ approved req.context = false))) ∧
    ((executeModel cfg env req).1.success = false ∧
        (executeModel cfg env req).1.attempts = 0 →
      (executeModel cfg env req).1.error ≠ none ∧
        (executeModel cfg env req).2.invoked = []) := by
  by_cases h1 : env.slotCancelled
  · constructor
    · simp [executeModel, h1]
    · intro _; simp [executeModel, h1]
  · cases h2 : validateInput req.tool req.input with
    | some msg =>
      constructor
      · simp [executeModel, h1, h2]
      · intro _; simp [executeModel, h1, h2]
    | none =>
      by_cases h3 : (requiresApprovalOf req.tool && !(approved req.context)) = true
      · constructor
        · constructor
          · intro _
            refine Or.inr (Or.inr ⟨by simpa using h1, rfl, ?_, ?_⟩)
            · exact ((Bool.and_eq_true _ _).mp h3).1
            · have := ((Bool.and_eq_true _ _).mp h3).2
              simpa using this
          · intro _
            simp [executeModel, h1, h2, h3]
        · intro _
          simp [executeModel, h1, h2, h3]
      · have hloop := executeModel_loop cfg env req (by simpa using h1) h2
          (by simpa using h3)
        have hnofail : ¬ ((executeModel cfg env req).1.success = false ∧
            (executeModel cfg env req).1.attempts = 0) := by
          rintro ⟨hs, ha⟩
          rcases runLoopAux_pass_or_pos req.tool.behavior (retryPolicyOf req.tool)
            env.backoffCancelled (maxAttemptsOf req.tool).toNat 0 none none 0 [] [] with hp | hp
          · have hsucc : (executeModel cfg env req).1.success = true := by
              rw [hloop.2.1, hloop.1, runLoop, hp]
              rfl
            rw [hsucc] at hs
            exact absurd hs (by decide)
          · have hpos : 0 < (executeModel cfg env req).1.attempts := by
              rw [hloop.2.2.2, hloop.1, runLoop]
              exact hp
            omega
        constructor
        · constructor
          · intro hf; exact absurd hf hnofail
          · rintro (hc | ⟨_, hv⟩ | ⟨_, _, hra, hnap⟩)
            · exact absurd hc h1
            · exact absurd rfl hv
            · exact absurd (by simp [hra, hnap]) h3
        · intro hf; exact absurd hf hnofail

/-- Witness for C4: a request whose slot wait is cancelled short-circuits
with a non-nil error and no invocation of the capability. -/
theorem claim4_short_circuits_witness :
    (executeModel ⟨5, 0⟩ c4Env c4Req).1.error ≠ none ∧
    (executeModel ⟨5, 0⟩ c4Env c4Req).2.invoked = [] :=
  (claim4_short_circuits ⟨5, 0⟩ c4Env c4Req).2 (by decide)

/-- C1: under a retry policy with `maxRetries = n ≥ 0` the capability's
`execute` runs at most `1 + n` times; with no retry policy it runs at most
once, and exactly once when the attempt loop is reached; and when the first
`k` attempts fail retryably (no cancellation) and attempt `k` succeeds
within the budget, the loop stops right there with `success = true` and
`attempts = k + 1` — so the fails-twice-then-succeeds capability under
`maxRetries = 3` reports `attempts = 3`. -/
theorem claim1_attempt_loop {α : Type} :
    (∀ (cfg : ExecutorConfig) (env : ExecEnv) (req : ExecuteRequest α) (p : RetryPolicy),
      retryPolicyOf req.tool = some p → 0 ≤ p.maxRetries →
      ((executeModel cfg env req).2.invoked.length : Int) ≤ 1 + p.maxRetries) ∧
    (∀ (cfg : ExecutorConfig) (env : ExecEnv) (req : ExecuteRequest α),
      retryPolicyOf req.tool = none →
      (executeModel cfg env req).2.invoked.length ≤ 1 ∧
      (env.slotCancelled = false → validateInput req.tool req.input = none →
        (requiresApprovalOf req.tool && !(approved req.context)) = false →
        (executeModel cfg env req).2.invoked = [0] ∧
          (executeModel cfg env req).1.attempts = 1)) ∧
    (∀ (cfg : ExecutorConfig) (env : ExecEnv) (req : ExecuteRequest α) (p : RetryPolicy)
      (k : Nat),
      retryPolicyOf req.tool = some p →
      env.slotCancelled = false →
      validateInput req.tool req.input = none →
      (requiresApprovalOf req.tool && !(approved req.context)) = false →
      (∀ j, j < k → ∃ m, (req.tool.behavior j).1 = some m ∧
        isRetryable m (retryPolicyOf req.tool) = true ∧ env.backoffCancelled j = false) →
      (req.tool.behavior k).1 = none →
      (k : Int) < 1 + p.maxRetries →
      (executeModel cfg env req).1.success = true ∧
        (executeModel cfg env req).1.attempts = k + 1 ∧
        (executeModel cfg env req).2.invoked = List.range (k + 1)) := by
  refine ⟨?_, ?_, ?_⟩
  · intro cfg env req p hpol hmr
    by_cases h1 : env.slotCancelled
    · simp [executeModel, h1]; omega
    · cases h2 : validateInput req.tool req.input with
      | some msg => simp [executeModel, h1, h2]; omega
      | none =>
        by_cases h3 : (requiresApprovalOf req.tool && !(approved req.context)) = true
        · simp [executeModel, h1, h2, h3]; omega
        · have hloop := executeModel_loop cfg env req (by simpa using h1) h2
            (by simpa using h3)
          have hlen := runLoopAux_invoked_length req.tool.behavior (retryPolicyOf req.tool)
            env.backoffCancelled (maxAttemptsOf req.tool).toNat 0 none none 0 [] []
          have hmax : maxAttemptsOf req.tool = 1 + p.maxRetries := by
            simp [maxAttemptsOf, hpol]
          rw [hloop.1, runLoop, hmax]
          rw [hmax] at hlen
          simp only [List.length_nil, Nat.zero_add] at hlen
          omega
  · intro cfg env req hpol
    have hmax : maxAttemptsOf req.tool = 1 := by simp [maxAttemptsOf, hpol]
    constructor
    · by_cases h1 : env.slotCancelled
      · simp [executeModel, h1]
      · cases h2 : validateInput req.tool req.input with
        | some msg => simp [executeModel, h1, h2]
        | none =>
          by_cases h3 : (requiresApprovalOf req.tool && !(approved req.context)) = true
          · simp [executeModel, h1, h2, h3]
          · have hloop := executeModel_loop cfg env req (by simpa using h1) h2
              (by simpa using h3)
            have hlen := runLoopAux_invoked_length req.tool.behavior (retryPolicyOf req.tool)
              env.backoffCancelled (maxAttemptsOf req.tool).toNat 0 none none 0 [] []
            rw [hloop.1, runLoop, hmax]
            rw [hmax] at hlen
            simpa using hlen
    · intro h1 h2 h3
      have hloop := executeModel_loop cfg env req h1 h2 h3
      have hone : runLoop req.tool.behavior (retryPolicyOf req.tool) env.backoffCancelled
          (maxAttemptsOf req.tool) =
          runLoopAux req.tool.behavior (retryPolicyOf req.tool) env.backoffCancelled
            1 0 none none 0 [] [] := by
        rw [runLoop, hmax]; rfl
      cases hb : (req.tool.behavior 0).1 with
      | none =>
        constructor
        · rw [hloop.1, hone]; simp [runLoopAux, hb]
        · rw [hloop.2.2.2, hloop.1, hone]; simp [runLoopAux, hb]
      | some m =>
        constructor
        · rw [hloop.1, hone]; simp [runLoopAux, hb]
        · rw [hloop.2.2.2, hloop.1, hone]; simp [runLoopAux, hb]
  · intro cfg env req p k hpol h1 h2 h3 hfail hsucc hk
    have hloop := executeModel_loop cfg env req h1 h2 h3
    have hmax : maxAttemptsOf req.tool = 1 + p.maxRetries := by
      simp [maxAttemptsOf, hpol]
    have hkrem : k < (maxAttemptsOf req.tool).toNat := by rw [hmax]; omega
    have hrun := runLoopAux_success_at req.tool.behavior (retryPolicyOf req.tool)
      env.backoffCancelled k (maxAttemptsOf req.tool).toNat 0 none none 0 [] []
      hkrem (fun j hj => by simpa using hfail j hj) (by simpa using hsucc)
    have hlo : (executeModel cfg env req).2 =
        ⟨(req.tool.behavior (0 + k)).2, none, 0 + k + 1, [] ++ List.range' 0 (k + 1),
          [] ++ List.range' 0 k⟩ := by
      rw [hloop.1, runLoop, hrun]
    refine ⟨?_, ?_, ?_⟩
    · rw [hloop.2.1, hlo]; rfl
    · rw [hloop.2.2.2, hlo]; simp
    · rw [hlo]; simp [List.range_eq_range']

/-- Witness for C1: the sample capability fails twice retryably and then
succeeds under `maxRetries = 3`, yielding `success = true, attempts = 3`;
its invocation trace is the three attempt ordinals. -/
theorem claim1_attempt_loop_witness :
    (executeModel ⟨5, 0⟩ c1Env c1Req).1.success = true ∧
    (executeModel ⟨5, 0⟩ c1Env c1Req).1.attempts = 2 + 1 ∧
    (executeModel ⟨5, 0⟩ c1Env c1Req).2.invoked = List.range (2 + 1) :=
  claim1_attempt_loop.2.2 ⟨5, 0⟩ c1Env c1Req c1Policy 2 rfl rfl rfl rfl
    (by
      intro j hj
      interval_cases j <;> exact ⟨"transient failure", rfl, by decide, rfl⟩)
    rfl (by decide)

/-- C6: an error is classified retryable exactly when the policy's pattern
set is empty or some pattern occurs in the error message as a substring;
and a non-retryable failure at attempt `k` stops the loop right there: no
further invocation and no entry into the backoff select for attempt `k`. -/
theorem claim6_retryability {α : Type} :
    (∀ (m : String) (p : RetryPolicy),
      (isRetryable m (some p) = true ↔
        (p.retryableErrors = [] ∨ ∃ pat ∈ p.retryableErrors, pat.data <:+: m.data))) ∧
    (∀ (cfg : ExecutorConfig) (env : ExecEnv) (req : ExecuteRequest α) (p : RetryPolicy)
      (k : Nat) (m : String),
      retryPolicyOf req.tool = some p →
      env.slotCancelled = false →
      validateInput req.tool req.input = none →
      (requiresApprovalOf req.tool && !(approved req.context)) = false →
      (∀ j, j < k → ∃ mj, (req.tool.behavior j).1 = some mj ∧
        isRetryable mj (retryPolicyOf req.tool) = true ∧ env.backoffCancelled j = false) →
      (req.tool.behavior k).1 = some m →
      isRetryable m (some p) = false →
      (k : Int) < 1 + p.maxRetries →
      (executeModel cfg env req).1.success = false ∧
        (executeModel cfg env req).1.error = some m ∧
        (executeModel cfg env req).1.attempts = k + 1 ∧
        (executeModel cfg env req).2.invoked = List.range (k + 1) ∧
        (executeModel cfg env req).2.backoffs = List.range k) := by
  constructor
  · intro m p
    by_cases he : p.retryableErrors.isEmpty
    · simp [isRetryable, he, List.isEmpty_iff.mp he]
    · simp only [isRetryable, he, if_false, List.any_eq_true]
      rw [List.isEmpty_iff] at he
      simp [containsSubstr, he]
  · intro cfg env req p k m hpol h1 h2 h3 hfail hfailk hnr hk
    have hloop := executeModel_loop cfg env req h1 h2 h3
    have hmax : maxAttemptsOf req.tool = 1 + p.maxRetries := by
      simp [maxAttemptsOf, hpol]
    have hkrem : k < (maxAttemptsOf req.tool).toNat := by rw [hmax]; omega
    have hrun := runLoopAux_failStop_at req.tool.behavior (retryPolicyOf req.tool)
      env.backoffCancelled k (maxAttemptsOf req.tool).toNat 0 none none 0 [] [] m
      hkrem (fun j hj => by simpa using hfail j hj) (by simpa using hfailk)
      (Or.inl (by rw [hpol]; exact hnr))
    have hlo : (executeModel cfg env req).2 =
        ⟨(req.tool.behavior (0 + k)).2, some m, 0 + k + 1, [] ++ List.range' 0 (k + 1),
          [] ++ List.range' 0 k⟩ := by
      rw [hloop.1, runLoop, hrun]
    refine ⟨?_, ?_, ?_, ?_, ?_⟩
    · rw [hloop.2.1, hlo]; rfl
    · rw [hloop.2.2.1, hlo]
    · rw [hloop.2.2.2, hlo]; simp
    · rw [hlo]; simp [List.range_eq_range']
    · rw [hlo]; simp [List.range_eq_range']

/-- Witness for C6: the sample capability fails at once with an error
matching no configured pattern; the call stops after one attempt with no
backoff wait. -/
theorem claim6_retryability_witness :
    (executeModel ⟨5, 0⟩ c6Env c6Req).1.success = false ∧
    (executeModel ⟨5, 0⟩ c6Env c6Req).1.error = some "permanent: invalid argument" ∧
    (executeModel ⟨5, 0⟩ c6Env c6Req).1.attempts = 0 + 1 ∧
    (executeModel ⟨5, 0⟩ c6Env c6Req).2.invoked = List.range (0 + 1) ∧
    (executeModel ⟨5, 0⟩ c6Env c6Req).2.backoffs = List.range 0 :=
  claim6_retryability.2 ⟨5, 0⟩ c6Env c6Req c1Policy 0 "permanent: invalid argument"
    rfl rfl rfl rfl (by intro j hj; omega) rfl (by decide) (by decide)

/-- C7 (amended): `duration = finishedAt − startedAt` holds on the
approval-denied short-circuit and on every attempt-loop completion, but on
the slot-wait-cancelled and validation-failure short-circuits the
`Duration` field is left at its zero value. -/
theorem claim7_duration_amended {α : Type} :
    ∀ (cfg : ExecutorConfig) (env : ExecEnv) (req : ExecuteRequest α),
      (executeModel cfg env req).1.duration =
        (if env.slotCancelled = true ∨ validateInput req.tool req.input ≠ none then 0
         else (executeModel cfg env req).1.finishedAt -
           (executeModel cfg env req).1.startedAt) := by
  intro cfg env req
  by_cases h1 : env.slotCancelled
  · simp [executeModel, h1]
  · cases h2 : validateInput req.tool req.input with
    | some msg => simp [executeModel, h1, h2]
    | none =>
      by_cases h3 : (requiresApprovalOf req.tool && !(approved req.context)) = true
      · simp [executeModel, h1, h2, h3]
      · simp [executeModel, h1, h2, h3]

/-- Counterexample to C7 as stated: on the validation-failure short-circuit
of the sample request the result has `duration = 0` while
`finishedAt − startedAt = 5`. -/
theorem claim7_duration_counterexample :
    ¬ ((executeModel ⟨5, 0⟩ c7Env c7Req).1.duration =
        (executeModel ⟨5, 0⟩ c7Env c7Req).1.finishedAt -
          (executeModel ⟨5, 0⟩ c7Env c7Req).1.startedAt) := by
  decide

/-- C2: the effective per-attempt timeout computed by the executor agrees,
for every tool, override and configuration, with the spec's resolution
order (override if positive, else declared timeout if positive, else the
engine default, with the long-running/no-timeout/no-override exception
granting unboundedness), and the engine default is 60 seconds whenever the
constructor was given a non-positive default. -/
theorem claim2_timeout_resolution {α : Type} :
    (∀ (cfg : ExecutorConfig) (t : Tool α) (ov : Int),
      effTimeout (newExecutorConfig cfg).defaultTimeout t ov =
        specTimeout (newExecutorConfig cfg).defaultTimeout t ov) ∧
    (∀ cfg : ExecutorConfig, cfg.defaultTimeout ≤ 0 →
      (newExecutorConfig cfg).defaultTimeout = 60 * second) := by
  constructor
  · intro cfg t ov
    rcases henh : t.enhanced with _ | et
    · simp [effTimeout, specTimeout, henh]
    · simp only [effTimeout, specTimeout, henh]
      by_cases hov : 0 < ov
      · simp [hov]
      · simp only [if_neg hov]
        by_cases htv : 0 < et.timeoutVal
        · have hno : (et.isLongRunningVal && et.timeoutVal == 0 && ov == 0) = false := by
            rcases hlr : et.isLongRunningVal with _ | _ <;> simp [beq_iff_eq] <;> omega
          simp [htv, hno]
        · by_cases hlr : (et.isLongRunningVal && et.timeoutVal == 0 && ov == 0) = true
          · simp [hlr, htv]
          · simp [eq_false_of_ne_true hlr, htv]
  · intro cfg h
    simp [newExecutorConfig, h]

/-- Witness for C2: a long-running capability with no declared timeout and
no override gets an unbounded (0) timeout, and a zero-config constructor
yields the 60-second engine default. -/
theorem claim2_timeout_resolution_witness :
    effTimeout (newExecutorConfig ⟨0, 0⟩).defaultTimeout c2Tool 0 =
      specTimeout (newExecutorConfig ⟨0, 0⟩).defaultTimeout c2Tool 0 ∧
    (newExecutorConfig ⟨0, 0⟩).defaultTimeout = 60 * second :=
  ⟨(claim2_timeout_resolution (α := Nat)).1 ⟨0, 0⟩ c2Tool 0,
    (claim2_timeout_resolution (α := Nat)).2 ⟨0, 0⟩ (by decide)⟩

/-- C8: `Registry.Create` prefers a registered factory (applying it to the
config), falls back to a registered singleton instance (ignoring the
config), fails with the not-found error naming the capability exactly when
neither exists, and never changes the registry. -/
theorem claim8_registry_create {κ τ : Type} (r : Registry κ τ) (name : String)
    (config : κ) :
    (∀ f, r.factories.lookup name = some f →
      registryCreate r name config = (f config, r)) ∧
    (r.factories.lookup name = none →
      ∀ t, r.instances.lookup name = some t →
        registryCreate r name config = ((some t, none), r)) ∧
    (r.factories.lookup name = none → r.instances.lookup name = none →
      registryCreate r name config = ((none, some (toolNotFoundMsg name)), r)) ∧
    (registryCreate r name config).2 = r := by
  refine ⟨?_, ?_, ?_, ?_⟩
  · intro f hf; simp [registryCreate, hf]
  · intro hf t ht; simp [registryCreate, hf, ht]
  · intro hf ht; simp [registryCreate, hf, ht]
  · cases hf : r.factories.lookup name with
    | some f => simp [registryCreate, hf]
    | none =>
      cases ht : r.instances.lookup name with
      | some t => simp [registryCreate, hf, ht]
      | none => simp [registryCreate, hf, ht]

/-- Witness for C8: in the sample registry, creating `"echo"` (no factory,
a singleton instance) returns the instance, and creating an unregistered
name fails with the not-found error; the registry is unchanged. -/
theorem claim8_registry_create_witness :
    registryCreate c8Reg "echo" 3 = ((some 7, none), c8Reg) ∧
    registryCreate c8Reg "nope" 3 = ((none, some (toolNotFoundMsg "nope")), c8Reg) :=
  ⟨(claim8_registry_create c8Reg "echo" 3).2.1 rfl 7 rfl,
    (claim8_registry_create c8Reg "nope" 3).2.2.1 rfl rfl⟩

/-! ### Lemmas about the batch scheduler -/

theorem insertByPriority_perm {α : Type} (x : BatchItem α) (l : List (BatchItem α)) :
    (insertByPriority x l).Perm (x :: l) := by
  induction l with
  | nil => simp [insertByPriority]
  | cons y ys ih =>
    by_cases h : x.priority < y.priority
    · simp only [insertByPriority, if_pos h]
      exact (List.Perm.cons y ih).trans (List.Perm.swap x y ys)
    · simp only [insertByPriority, if_neg h]
      exact List.Perm.refl _

theorem stableSortDesc_perm {α : Type} (l : List (BatchItem α)) :
    (stableSortDesc l).Perm l := by
  induction l with
  | nil => simp [stableSortDesc]
  | cons x xs ih =>
    exact (insertByPriority_perm x (stableSortDesc xs)).trans (List.Perm.cons x ih)

theorem insertByPriority_pairwise {α : Type} (x : BatchItem α) (l : List (BatchItem α))
    (hl : l.Pairwise BatchRel) (hx : ∀ z ∈ l, x.idx < z.idx) :
    (insertByPriority x l).Pairwise BatchRel := by
  induction l with
  | nil => simp [insertByPriority]
  | cons y ys ih =>
    rcases List.pairwise_cons.mp hl with ⟨hy, hys⟩
    by_cases h : x.priority < y.priority
    · simp only [insertByPriority, if_pos h]
      refine List.pairwise_cons.mpr ⟨?_, ih hys fun z hz => hx z (List.mem_cons_of_mem y hz)⟩
      intro w hw
      rcases List.mem_cons.mp ((insertByPriority_perm x ys).mem_iff.mp hw) with rfl | hw'
      · exact Or.inl h
      · exact hy w hw'
    · simp only [insertByPriority, if_neg h]
      refine List.pairwise_cons.mpr ⟨?_, hl⟩
      intro w hw
      rcases List.mem_cons.mp hw with rfl | hw'
      · have hxw : x.idx < w.idx := hx w (List.mem_cons_self _ _)
        have : w.priority < x.priority ∨ x.priority = w.priority := by omega
        rcases this with h' | h'
        · exact Or.inl h'
        · exact Or.inr ⟨h', hxw⟩
      · have hyw := hy w hw'
        have hxw : x.idx < w.idx := hx w (List.mem_cons_of_mem y hw')
        have : w.priority < x.priority ∨ x.priority = w.priority := by
          rcases hyw with hlt | ⟨heq, _⟩ <;> omega
        rcases this with h' | h'
        · exact Or.inl h'
        · exact Or.inr ⟨h', hxw⟩

theorem stableSortDesc_pairwise {α : Type} (l : List (BatchItem α))
    (hl : l.Pairwise fun a b => a.idx < b.idx) :
    (stableSortDesc l).Pairwise BatchRel := by
  induction l with
  | nil => simp [stableSortDesc]
  | cons x xs ih =>
    rcases List.pairwise_cons.mp hl with ⟨hx, hxs⟩
    exact insertByPriority_pairwise x _ (ih hxs)
      fun z hz => hx z ((stableSortDesc_perm xs).mem_iff.mp hz)

theorem batchItems_pairwise_idx {α : Type} (reqs : List (ExecuteRequest α)) :
    (batchItems reqs).Pairwise fun a b => a.idx < b.idx := by
  unfold batchItems
  rw [List.pairwise_map]
  have h1 : (reqs.enum.map Prod.fst).Pairwise (· < ·) := by
    rw [List.enum_map_fst]
    exact List.pairwise_lt_range _
  exact List.pairwise_map.mp h1

theorem batchItems_map_idx {α : Type} (reqs : List (ExecuteRequest α)) :
    (batchItems reqs).map BatchItem.idx = List.range reqs.length := by
  unfold batchItems
  rw [List.map_map, ← List.enum_map_fst reqs]
  rfl

theorem foldl_batchStep_length {α : Type} (cfg : ExecutorConfig) (envs : Nat → ExecEnv) :
    ∀ (l : List (BatchItem α)) (acc : List (Option (ExecuteResult α))),
      (l.foldl (batchStep cfg envs) acc).length = acc.length := by
  intro l
  induction l with
  | nil => intro acc; rfl
  | cons x xs ih =>
    intro acc
    rw [List.foldl_cons, ih]
    simp [batchStep]

theorem foldl_batchStep_not_mem {α : Type} (cfg : ExecutorConfig) (envs : Nat → ExecEnv) :
    ∀ (l : List (BatchItem α)) (acc : List (Option (ExecuteResult α))) (i : Nat),
      (∀ item ∈ l, item.idx ≠ i) →
      (l.foldl (batchStep cfg envs) acc)[i]? = acc[i]? := by
  intro l
  induction l with
  | nil => intro acc i _; rfl
  | cons x xs ih =>
    intro acc i hne
    rw [List.foldl_cons, ih _ i fun item hit => hne item (List.mem_cons_of_mem x hit)]
    exact List.getElem?_set_ne (hne x (List.mem_cons_self _ _))

theorem foldl_batchStep_mem {α : Type} (cfg : ExecutorConfig) (envs : Nat → ExecEnv) :
    ∀ (l : List (BatchItem α)) (acc : List (Option (ExecuteResult α)))
      (item : BatchItem α),
      item ∈ l → (l.map BatchItem.idx).Nodup → item.idx < acc.length →
      (l.foldl (batchStep cfg envs) acc)[item.idx]? =
        some (some (executeModel cfg (envs item.idx) item.req).1) := by
  intro l
  induction l with
  | nil => intro acc item h; exact absurd h (List.not_mem_nil item)
  | cons x xs ih =>
    intro acc item hmem hnd hlen
    have hnd' : (x.idx ∉ xs.map BatchItem.idx) ∧ (xs.map BatchItem.idx).Nodup := by
      rw [List.map_cons] at hnd
      exact List.nodup_cons.mp hnd
    rcases List.mem_cons.mp hmem with rfl | hmem'
    · have hnot : ∀ it ∈ xs, it.idx ≠ item.idx := by
        intro it hit he
        exact hnd'.1 (he ▸ List.mem_map_of_mem BatchItem.idx hit)
      rw [List.foldl_cons, foldl_batchStep_not_mem cfg envs xs _ item.idx hnot]
      simp [batchStep, List.getElem?_set, hlen]
    · rw [List.foldl_cons]
      exact ih _ item hmem' hnd'.2 (by simpa [batchStep] using hlen)

/-- C5: `ExecuteBatch` returns a result list of the input's length whose
entry at `i` is the result of executing `requests[i]` under its own
environment, independent of priorities; the dispatch order is the stable
descending-priority permutation of the input (ties keep submission
order). -/
theorem claim5_batch_alignment {α : Type} (cfg : ExecutorConfig) (envs : Nat → ExecEnv)
    (reqs : List (ExecuteRequest α)) :
    (executeBatch cfg envs reqs).length = reqs.length ∧
    (∀ (i : Nat) (h : i < reqs.length),
      (executeBatch cfg envs reqs)[i]? =
        some (some (executeModel cfg (envs i) (reqs.get ⟨i, h⟩)).1)) ∧
    (dispatchOrder reqs).Pairwise BatchRel ∧
    (dispatchOrder reqs).Perm (batchItems reqs) := by
  have hperm : (dispatchOrder reqs).Perm (batchItems reqs) := stableSortDesc_perm _
  have hmapperm : ((dispatchOrder reqs).map BatchItem.idx).Perm (List.range reqs.length) := by
    rw [← batchItems_map_idx]
    exact hperm.map BatchItem.idx
  have hnd : ((dispatchOrder reqs).map BatchItem.idx).Nodup :=
    hmapperm.symm.nodup (List.nodup_range _)
  refine ⟨?_, ?_, stableSortDesc_pairwise _ (batchItems_pairwise_idx reqs), hperm⟩
  · rw [executeBatch, foldl_batchStep_length]
    exact List.length_replicate _ _
  · intro i h
    have hi : i ∈ (dispatchOrder reqs).map BatchItem.idx :=
      hmapperm.symm.subset (List.mem_range.mpr h)
    rcases List.mem_map.mp hi with ⟨item, hitem, hidx⟩
    have hbatch : item ∈ batchItems reqs := hperm.subset hitem
    rcases List.mem_map.mp hbatch with ⟨p, hp, hpeq⟩
    have hgetp : reqs[p.1]? = some p.2 := by
      rcases p with ⟨j, r⟩
      exact List.mk_mem_enum_iff_getElem?.mp hp
    have hreq : item.req = reqs.get ⟨i, h⟩ := by
      have hidx' : p.1 = i := by rw [← hpeq] at hidx; exact hidx
      rw [hidx', List.getElem?_eq_getElem h] at hgetp
      have h2 : item.req = p.2 := by rw [← hpeq]
      rw [h2]
      exact (Option.some.inj hgetp).symm
    have hlen' : item.idx < (List.replicate reqs.length (none : Option (ExecuteResult α))).length := by
      rw [List.length_replicate, hidx]
      exact h
    have := foldl_batchStep_mem cfg envs (dispatchOrder reqs) _ item hitem hnd hlen'
    rw [hidx] at this
    rw [hreq] at this
    rw [executeBatch]
    exact this

/-- Witness for C5: in the two-request sample batch (priorities 1 and 5)
the result list has length 2 and its entry 0 is the execution of request 0
despite request 1's higher priority. -/
theorem claim5_batch_alignment_witness :
    (executeBatch ⟨5, 0⟩ (fun _ => c5Env) c5Reqs).length = c5Reqs.length ∧
    (executeBatch ⟨5, 0⟩ (fun _ => c5Env) c5Reqs)[0]? =
      some (some (executeModel ⟨5, 0⟩ c5Env (c5Reqs.get ⟨0, by decide⟩)).1) :=
  ⟨(claim5_batch_alignment ⟨5, 0⟩ (fun _ => c5Env) c5Reqs).1,
    (claim5_batch_alignment ⟨5, 0⟩ (fun _ => c5Env) c5Reqs).2.1 0 (by decide)⟩

/-! ### Lemmas about the admission pool -/

theorem countP_set_balance {γ : Type} (p : γ → Bool) (l : List γ) (i : Nat)
    (a b : γ) (hb : l[i]? = some b) :
    (l.set i a).countP p + (if p b then 1 else 0) =
      l.countP p + (if p a then 1 else 0) := by
  have hi : i < l.length := by
    by_contra hcon
    rw [List.getElem?_eq_none (Nat.le_of_not_lt hcon)] at hb
    exact Option.noConfusion hb
  have hbe : l[i] = b := by
    rw [List.getElem?_eq_getElem hi] at hb
    exact Option.some.inj hb
  rw [List.countP_set p l i a hi, hbe]
  have hge : (if p b then 1 else 0) ≤ l.countP p := by
    by_cases hp : p b
    · simp only [hp, if_pos]
      have hmem : b ∈ l := hbe ▸ List.getElem_mem hi
      exact List.countP_pos_iff.mpr ⟨b, hmem, hp⟩
    · simp [hp]
  omega

theorem countP_replicate_queued (n : Nat) :
    (List.replicate n Phase.queued).countP (fun p => p == Phase.running) = 0 := by
  induction n with
  | zero => rfl
  | succ m ih =>
    rw [List.replicate_succ, List.countP_cons]
    simp [ih]

/-- One step of the pool preserves the conservation invariant: the channel
occupancy counts exactly the running requests and never exceeds the
capacity. -/
theorem poolStep_invariant {k : Nat} {s t : PoolState} (st : PoolStep k s t)
    (heq : runningCount s = s.occupancy) (hle : s.occupancy ≤ k) :
    runningCount t = t.occupancy ∧ t.occupancy ≤ k := by
  cases st with
  | acquire i h hocc =>
    have hc := countP_set_balance (fun p => p == Phase.running) s.phases i
      Phase.running Phase.queued h
    simp only [runningCount] at heq ⊢
    simp only [show ((Phase.queued == Phase.running) = false) from rfl,
      show ((Phase.running == Phase.running) = true) from rfl, if_pos, if_neg,
      Bool.false_eq_true, if_false, if_true, Nat.add_zero] at hc
    constructor
    · omega
    · omega
  | cancelBeforeAdmission i h =>
    have hc := countP_set_balance (fun p => p == Phase.running) s.phases i
      Phase.cancelled Phase.queued h
    simp only [runningCount] at heq ⊢
    simp only [show ((Phase.queued == Phase.running) = false) from rfl,
      show ((Phase.cancelled == Phase.running) = false) from rfl,
      Bool.false_eq_true, if_false, Nat.add_zero] at hc
    exact ⟨by omega, hle⟩
  | finishAndRelease i h =>
    have hc := countP_set_balance (fun p => p == Phase.running) s.phases i
      Phase.finished Phase.running h
    simp only [runningCount] at heq ⊢
    simp only [show ((Phase.running == Phase.running) = true) from rfl,
      show ((Phase.finished == Phase.running) = false) from rfl,
      Bool.false_eq_true, if_false, if_true, Nat.add_zero] at hc
    constructor
    · omega
    · omega

/-- C9: in every state reachable from `n` queued requests under an
admission pool of capacity `k`, the semaphore occupancy counts exactly the
requests whose capability execution is in flight (each admitted request
holds exactly one slot until its `Execute` returns, and a request cancelled
before admission neither holds nor releases one — the `cancelBeforeAdmission`
transition leaves the occupancy untouched), the occupancy never exceeds
`k`, and hence at most `k` executions are ever in flight at once. -/
theorem claim9_admission_bound (k n : Nat) (s : PoolState)
    (h : PoolReachable k n s) :
    runningCount s = s.occupancy ∧ s.occupancy ≤ k ∧ runningCount s ≤ k := by
  have main : runningCount s = s.occupancy ∧ s.occupancy ≤ k := by
    induction h with
    | refl =>
      constructor
      · simp [runningCount, initPool, countP_replicate_queued]
      · simp [initPool]
    | tail hsteps hstep ih => exact poolStep_invariant hstep ih.1 ih.2
  exact ⟨main.1, main.2, main.1 ▸ main.2⟩

/-- Witness for C9: with capacity 1 and two requests, the state in which
request 0 has been admitted and is running satisfies the bound. -/
theorem claim9_admission_bound_witness :
    runningCount ⟨[Phase.running, Phase.queued], 1⟩ =
      (PoolState.mk [Phase.running, Phase.queued] 1).occupancy ∧
    (PoolState.mk [Phase.running, Phase.queued] 1).occupancy ≤ 1 ∧
    runningCount ⟨[Phase.running, Phase.queued], 1⟩ ≤ 1 :=
  claim9_admission_bound 1 2 ⟨[Phase.running, Phase.queued], 1⟩
    (Relation.ReflTransGen.single
      (PoolStep.acquire (initPool 2) 0 rfl (by decide)))

end ChanAI
